import Mathlib

/-!
Verification development for the ORTools team balancer solver core
(`solver.py`, `build_and_solve`), with supporting input preparation from
`data_prep.py`.

The CP-SAT model built by `build_and_solve` is embedded shallowly: the
constraint set the code adds to the model becomes a satisfaction predicate
`SatisfiesModel` over an explicit valuation of every model variable, the
eager validation code becomes an `Except`-valued checker, and the solution
extraction and diagnostics code becomes pure functions of the valuation.
Machine floats of the source are modelled as rationals; `np.round` is
round-half-to-even, Python `int()` truncates toward zero, and Python `//`
is floor division (`Int.fdiv`).
-/

namespace TeamBalancer

set_option synthInstance.maxSize 1000

/-- One row of the validated signups dataframe (columns Name, Skill,
Position, Captain, Avoid as produced by `prepare_data`). -/
structure Player where
  name : String
  skill : ℚ
  pos : ℤ
  captain : Bool
  avoid : Option String
deriving DecidableEq

instance : Inhabited Player := ⟨⟨"", 0, 0, false, none⟩⟩

/-- The arguments of `build_and_solve` (df, roles, role_weights, num_teams,
captain_policy, captain_hard, the three weights, presets, random_seed). -/
structure Input where
  players : List Player
  roles : List ℤ
  roleWeights : List (ℤ × ℚ)
  numTeams : ℕ
  captainPolicy : String
  captainHard : Bool
  conflictWeight : ℚ
  balanceWeight : ℚ
  captainWeight : ℚ
  presets : List (String × ℤ)
  randomSeed : ℤ

/-- `P = len(players)`. -/
def numPlayers (inp : Input) : ℕ := inp.players.length

/-- Row access into the dataframe. -/
def playerAt (inp : Input) (p : ℕ) : Player := inp.players.getD p default

/-- `pos[p]`. -/
def pos (inp : Input) (p : ℕ) : ℤ := (playerAt inp p).pos

/-- `is_capt[p]` (0/1 integer column). -/
def captInt (inp : Input) (p : ℕ) : ℤ := if (playerAt inp p).captain then 1 else 0

/-- `name_to_idx`: a Python dict comprehension keeps the last index for a
repeated key, so the lookup returns the last matching row index. -/
def nameIdx (inp : Input) (n : String) : Option ℕ :=
  ((List.range (numPlayers inp)).filter (fun i => (playerAt inp i).name = n)).getLast?

/-- `roles = list(sorted(set(roles)))`: duplicates removed, ascending order. -/
def rolesSorted (inp : Input) : List ℤ := (inp.roles.dedup).insertionSort (· ≤ ·)

/-- `R = len(roles)`. -/
def numRoles (inp : Input) : ℕ := (rolesSorted inp).length

/-- `role_weights.get(r, 1.0)`. -/
def lookupWeight (ws : List (ℤ × ℚ)) (r : ℤ) : ℚ :=
  match ws.find? (fun kv => kv.1 = r) with
  | some kv => kv.2
  | none => 1

/-- `weighted_skill[p] = skill[p] * role_weights.get(pos[p], 1.0)`. -/
def weightedSkill (inp : Input) (p : ℕ) : ℚ :=
  (playerAt inp p).skill * lookupWeight inp.roleWeights (pos inp p)

/-- Round the fraction `a / b` (with `b > 0`) to the nearest integer,
ties to even: the behaviour of `np.round` on exact rationals. -/
def roundHalfEven (a b : ℤ) : ℤ :=
  if 2 * Int.fmod a b < b then Int.fdiv a b
  else if b < 2 * Int.fmod a b then Int.fdiv a b + 1
  else if Int.fdiv a b % 2 = 0 then Int.fdiv a b else Int.fdiv a b + 1

/-- `np.round` on a rational value. -/
def npRound (q : ℚ) : ℤ := roundHalfEven q.num (q.den : ℤ)

/-- `SCALE = 100`. -/
def SCALE : ℤ := 100

/-- `scaled_ws[p] = int(np.round(weighted_skill[p] * SCALE))`. -/
def scaledWs (inp : Input) (p : ℕ) : ℤ := npRound (weightedSkill inp p * (SCALE : ℚ))

/-- `total_score = int(np.sum(scaled_ws))`. -/
def totalScore (inp : Input) : ℤ := ∑ p ∈ Finset.range (numPlayers inp), scaledWs inp p

/-- `target = total_score // num_teams` (Python floor division). -/
def target (inp : Input) : ℤ := Int.fdiv (totalScore inp) (inp.numTeams : ℤ)

/-- `num_captains = int(np.sum(is_capt))`. -/
def numCaptains (inp : Input) : ℤ := ∑ p ∈ Finset.range (numPlayers inp), captInt inp p

/-- The directed avoid pairs: one per row whose Avoid value is present and
names a known player; both endpoints resolved through `name_to_idx`. -/
def avoidPairs (inp : Input) : List (ℕ × ℕ) :=
  (List.range (numPlayers inp)).filterMap (fun p =>
    match (playerAt inp p).avoid with
    | none => none
    | some b =>
      match nameIdx inp b with
      | none => none
      | some pb => (nameIdx inp ((playerAt inp p).name)).map (fun pa => (pa, pb)))

/-- The guard of the `at_least_one` hard-to-soft downgrade
(`captain_hard and num_captains < num_teams`). -/
def atLeastOneDowngrade (inp : Input) : Bool :=
  inp.captainPolicy = "at_least_one" && inp.captainHard
    && numCaptains inp < (inp.numTeams : ℤ)

/-- The guard of the `separate` hard-to-soft downgrade
(`captain_hard and num_captains > num_teams`). -/
def separateDowngrade (inp : Input) : Bool :=
  inp.captainPolicy = "separate" && inp.captainHard
    && (inp.numTeams : ℤ) < numCaptains inp

/-- The `feasibility_warnings` list accumulated during model building. -/
def feasibilityWarnings (inp : Input) : List String :=
  (if atLeastOneDowngrade inp then
    ["Not enough captains for at_least_one hard constraint; downgrading to soft penalty."]
   else [])
  ++ (if separateDowngrade inp then
    ["Too many captains for separate hard constraint; downgrading to soft penalty."]
   else [])

/-- The value of `captain_hard` after the auto-downgrade branches ran. -/
def effectiveCaptainHard (inp : Input) : Bool :=
  inp.captainHard && !atLeastOneDowngrade inp && !separateDowngrade inp

/-- The preset validation loop: unknown player name or team index outside
`1..num_teams` raises `ValueError`. -/
def checkPresetsList (inp : Input) : List (String × ℤ) → Except String Unit
  | [] => .ok ()
  | (n, t1) :: rest =>
    match nameIdx inp n with
    | none => .error ("Preset player " ++ n ++ " not found in signups.")
    | some _ =>
      if 1 ≤ t1 ∧ t1 ≤ (inp.numTeams : ℤ) then checkPresetsList inp rest
      else .error ("Preset team index for " ++ n ++ " out of range 1..num_teams.")

/-- The captain-policy name validation (`ValueError` on anything outside
none / at_least_one / separate). -/
def checkPolicy (inp : Input) : Except String Unit :=
  if inp.captainPolicy = "none" ∨ inp.captainPolicy = "at_least_one"
      ∨ inp.captainPolicy = "separate" then .ok ()
  else .error "captain_policy must be one of: none, at_least_one, separate"

/-- All eager validation performed by `build_and_solve` before the solver
is invoked, in source order: presets first, then the policy name. -/
def buildChecks (inp : Input) : Except String Unit :=
  match checkPresetsList inp inp.presets with
  | .error e => .error e
  | .ok _ => checkPolicy inp

instance {ε α : Type} [DecidableEq ε] [DecidableEq α] : DecidableEq (Except ε α)
  | .ok a, .ok b =>
    if h : a = b then .isTrue (by rw [h]) else .isFalse (by intro hh; cases hh; exact h rfl)
  | .ok _, .error _ => .isFalse (by intro h; cases h)
  | .error _, .ok _ => .isFalse (by intro h; cases h)
  | .error e, .error f =>
    if h : e = f then .isTrue (by rw [h]) else .isFalse (by intro hh; cases hh; exact h rfl)

/-- A valuation of every variable family the model declares:
`x[p,t]`, `s[t]`, `diff[t]`, `d[t]`, `y[pa,pb,t]`, `captains_t[t]`, and the
soft-penalty variables `capt_min_violation_t[t]` / `capt_max_violation_t[t]`. -/
structure Valuation where
  x : ℕ → ℕ → ℤ
  s : ℕ → ℤ
  diff : ℕ → ℤ
  d : ℕ → ℤ
  y : ℕ → ℕ → ℕ → ℤ
  c : ℕ → ℤ
  capMin : ℕ → ℤ
  capMax : ℕ → ℤ

/-- A 0/1 value, the domain of a `NewBoolVar`. -/
def BoolVar (z : ℤ) : Prop := z = 0 ∨ z = 1

instance (z : ℤ) : Decidable (BoolVar z) := inferInstanceAs (Decidable (z = 0 ∨ z = 1))

/-- The structural constraints on the assignment indicators: boolean
domains, each player on exactly one team, exactly one player per role per
team, and the preset pinning equalities. -/
def StructuralSat (inp : Input) (xv : ℕ → ℕ → ℤ) : Prop :=
  (∀ p < numPlayers inp, ∀ t < inp.numTeams, BoolVar (xv p t))
  ∧ (∀ p < numPlayers inp, ∑ t ∈ Finset.range inp.numTeams, xv p t = 1)
  ∧ (∀ t < inp.numTeams, ∀ r ∈ rolesSorted inp,
      ∑ p ∈ (Finset.range (numPlayers inp)).filter (fun p => pos inp p = r), xv p t = 1)
  ∧ (∀ pr ∈ inp.presets, ∀ pi < numPlayers inp, nameIdx inp pr.1 = some pi →
      ∀ tt < inp.numTeams, xv pi tt = if (tt : ℤ) = pr.2 - 1 then 1 else 0)

/-- The score constraints: variable domains of `s_t`, `diff_t`, `d_t` and
the defining equalities / absolute-value inequalities. -/
def ScoreSat (inp : Input) (v : Valuation) : Prop :=
  ∀ t < inp.numTeams,
    (0 ≤ v.s t ∧ v.s t ≤ 10 ^ 9)
    ∧ v.s t = ∑ p ∈ Finset.range (numPlayers inp), scaledWs inp p * v.x p t
    ∧ (-(10 ^ 9) ≤ v.diff t ∧ v.diff t ≤ 10 ^ 9)
    ∧ v.diff t = v.s t - target inp
    ∧ (0 ≤ v.d t ∧ v.d t ≤ 10 ^ 9)
    ∧ v.diff t ≤ v.d t ∧ -(v.diff t) ≤ v.d t

/-- The conflict constraints: a boolean co-placement variable per directed
avoid pair and team, tied to the indicators by the three McCormick
inequalities. -/
def ConflictSat (inp : Input) (v : Valuation) : Prop :=
  ∀ pr ∈ avoidPairs inp, ∀ t < inp.numTeams,
    BoolVar (v.y pr.1 pr.2 t)
    ∧ v.y pr.1 pr.2 t ≤ v.x pr.1 t
    ∧ v.y pr.1 pr.2 t ≤ v.x pr.2 t
    ∧ v.x pr.1 t + v.x pr.2 t - 1 ≤ v.y pr.1 pr.2 t

/-- The captain-count constraints: `captains_t` has domain `0..R` and
counts the captains assigned to the team. -/
def CaptainCountSat (inp : Input) (v : Valuation) : Prop :=
  ∀ t < inp.numTeams,
    (0 ≤ v.c t ∧ v.c t ≤ (numRoles inp : ℤ))
    ∧ v.c t = ∑ p ∈ Finset.range (numPlayers inp), captInt inp p * v.x p t

/-- The captain-policy constraints actually added after the downgrade
branches: the hard bound when `captain_hard` survived, otherwise the
bounded violation variables. -/
def CaptainPolicySat (inp : Input) (v : Valuation) : Prop :=
  (inp.captainPolicy = "at_least_one" → effectiveCaptainHard inp = true →
    ∀ t < inp.numTeams, 1 ≤ v.c t)
  ∧ (inp.captainPolicy = "at_least_one" → effectiveCaptainHard inp = false →
    ∀ t < inp.numTeams,
      (0 ≤ v.capMin t ∧ v.capMin t ≤ 1) ∧ 1 - v.c t ≤ v.capMin t)
  ∧ (inp.captainPolicy = "separate" → effectiveCaptainHard inp = true →
    ∀ t < inp.numTeams, v.c t ≤ 1)
  ∧ (inp.captainPolicy = "separate" → effectiveCaptainHard inp = false →
    ∀ t < inp.numTeams,
      (0 ≤ v.capMax t ∧ v.capMax t ≤ (numRoles inp : ℤ)) ∧ v.c t - 1 ≤ v.capMax t)

instance (inp : Input) (xv : ℕ → ℕ → ℤ) : Decidable (StructuralSat inp xv) := by
  unfold StructuralSat; infer_instance

instance (inp : Input) (v : Valuation) : Decidable (ScoreSat inp v) := by
  unfold ScoreSat; infer_instance

instance (inp : Input) (v : Valuation) : Decidable (ConflictSat inp v) := by
  unfold ConflictSat; infer_instance

instance (inp : Input) (v : Valuation) : Decidable (CaptainCountSat inp v) := by
  unfold CaptainCountSat; infer_instance

instance (inp : Input) (v : Valuation) : Decidable (CaptainPolicySat inp v) := by
  unfold CaptainPolicySat; infer_instance

/-- A valuation is feasible for the built model when it satisfies every
constraint `build_and_solve` adds. -/
def SatisfiesModel (inp : Input) (v : Valuation) : Prop :=
  StructuralSat inp v.x ∧ ScoreSat inp v ∧ ConflictSat inp v
    ∧ CaptainCountSat inp v ∧ CaptainPolicySat inp v

instance (inp : Input) (v : Valuation) : Decidable (SatisfiesModel inp v) := by
  unfold SatisfiesModel; infer_instance

/-- Python `int()` on a rational: truncation toward zero. -/
def pyInt (q : ℚ) : ℤ := if 0 ≤ q then ⌊q⌋ else -⌊-q⌋

/-- `sum(conflict_terms)` under a valuation. -/
def conflictSum (inp : Input) (v : Valuation) : ℤ :=
  ((avoidPairs inp).map
    (fun pr => ∑ t ∈ Finset.range inp.numTeams, v.y pr.1 pr.2 t)).sum

/-- `len(conflict_terms)`. -/
def conflictTermCount (inp : Input) : ℕ := (avoidPairs inp).length * inp.numTeams

/-- `sum(captain_penalty_terms)` under a valuation. -/
def captainPenaltySum (inp : Input) (v : Valuation) : ℤ :=
  if inp.captainPolicy = "at_least_one" ∧ effectiveCaptainHard inp = false then
    ∑ t ∈ Finset.range inp.numTeams, v.capMin t
  else if inp.captainPolicy = "separate" ∧ effectiveCaptainHard inp = false then
    ∑ t ∈ Finset.range inp.numTeams, v.capMax t
  else 0

/-- `len(captain_penalty_terms)`. -/
def captainPenaltyCount (inp : Input) : ℕ :=
  if (inp.captainPolicy = "at_least_one" ∨ inp.captainPolicy = "separate")
      ∧ effectiveCaptainHard inp = false then inp.numTeams
  else 0

/-- The minimized objective: each weighted term included only when its
weight is nonzero and its term list is nonempty, the conflict and captain
weights scaled by `int(w * SCALE)`. -/
def objective (inp : Input) (v : Valuation) : ℚ :=
  (if inp.balanceWeight ≠ 0 then
    inp.balanceWeight * ((∑ t ∈ Finset.range inp.numTeams, v.d t : ℤ) : ℚ)
   else 0)
  + (if inp.conflictWeight ≠ 0 ∧ conflictTermCount inp ≠ 0 then
      ((pyInt (inp.conflictWeight * (SCALE : ℚ)) : ℤ) : ℚ) * ((conflictSum inp v : ℤ) : ℚ)
     else 0)
  + (if inp.captainWeight ≠ 0 ∧ captainPenaltyCount inp ≠ 0 then
      ((pyInt (inp.captainWeight * (SCALE : ℚ)) : ℤ) : ℚ) * ((captainPenaltySum inp v : ℤ) : ℚ)
     else 0)

/-- The three possible solver outcomes at the call boundary. -/
inductive SolveStatus where
  | optimal : SolveStatus
  | feasible : SolveStatus
  | infeasibleOrUnknown : SolveStatus
deriving DecidableEq

/-- `solver.parameters.max_time_in_seconds = 30.0`. -/
def solverMaxTimeSeconds (_ : Input) : ℚ := 30

/-- `solver.parameters.random_seed = random_seed`. -/
def solverRandomSeed (inp : Input) : ℤ := inp.randomSeed

/-- `solver.parameters.num_search_workers = 8`. -/
def solverNumWorkers (_ : Input) : ℕ := 8

/-- The extraction loop: the first team whose indicator is set, plus one
(teams are reported 1-based); 0 when no indicator is set. -/
def teamFor (v : Valuation) (T : ℕ) (p : ℕ) : ℕ :=
  match (List.range T).find? (fun t => v.x p t = 1) with
  | some t => t + 1
  | none => 0

/-- The `Team` column appended to the output dataframe. -/
def assignments (inp : Input) (v : Valuation) : List ℕ :=
  (List.range (numPlayers inp)).map (teamFor v inp.numTeams)

/-- The diagnostics record returned beside the assignment. -/
structure Diagnostics where
  status : String
  teamScores : List ℚ
  targetScore : ℚ
  deviations : List ℚ
  captainCounts : List ℤ
  numCaptains : ℤ
  feasibilityWarnings : List String
deriving DecidableEq

/-- Building the diagnostics dict from the valuation: scores, target and
deviations divided by `SCALE`, captain counts raw, and the accumulated
warnings. -/
def diagnosticsOf (inp : Input) (st : SolveStatus) (v : Valuation) : Diagnostics :=
  { status := if st = SolveStatus.optimal then "OPTIMAL" else "FEASIBLE"
    teamScores := (List.range inp.numTeams).map (fun t => ((v.s t : ℤ) : ℚ) / (SCALE : ℚ))
    targetScore := ((target inp : ℤ) : ℚ) / (SCALE : ℚ)
    deviations := (List.range inp.numTeams).map (fun t => ((v.d t : ℤ) : ℚ) / (SCALE : ℚ))
    captainCounts := (List.range inp.numTeams).map (fun t => v.c t)
    numCaptains := numCaptains inp
    feasibilityWarnings := feasibilityWarnings inp }

/-- End-to-end behaviour of `build_and_solve` around one solver call:
eager validation first (any failure aborts before the solver result is
examined), then the status check (`RuntimeError` on anything other than
OPTIMAL / FEASIBLE), then extraction and diagnostics. -/
def run (inp : Input) (st : SolveStatus) (v : Valuation) :
    Except String (List ℕ × Diagnostics) :=
  match buildChecks inp with
  | .error e => .error e
  | .ok _ =>
    if st = SolveStatus.infeasibleOrUnknown then
      .error "No feasible assignment found. Try relaxing constraints or presets."
    else .ok (assignments inp v, diagnosticsOf inp st v)

/-- `scaled_ws` computed directly on numerators and denominators, without
normalizing rational arithmetic; provably equal to `scaledWs` and usable
for kernel evaluation on concrete inputs. -/
def scaledWsInt (inp : Input) (p : ℕ) : ℤ :=
  roundHalfEven
    ((playerAt inp p).skill.num * (lookupWeight inp.roleWeights (pos inp p)).num * SCALE)
    (((playerAt inp p).skill.den : ℤ) * ((lookupWeight inp.roleWeights (pos inp p)).den : ℤ))

/-- Extend a structurally feasible assignment to a full valuation of every
model variable: scores and captain counts by their defining sums, the
deviation at its lower envelope, co-placements as products, and the soft
captain violations at their lower envelopes. -/
def completeVal (inp : Input) (xv : ℕ → ℕ → ℤ) : Valuation where
  x := xv
  s := fun t => ∑ p ∈ Finset.range (numPlayers inp), scaledWs inp p * xv p t
  diff := fun t => (∑ p ∈ Finset.range (numPlayers inp), scaledWs inp p * xv p t) - target inp
  d := fun t => |(∑ p ∈ Finset.range (numPlayers inp), scaledWs inp p * xv p t) - target inp|
  y := fun pa pb t => xv pa t * xv pb t
  c := fun t => ∑ p ∈ Finset.range (numPlayers inp), captInt inp p * xv p t
  capMin := fun t => max 0 (1 - ∑ p ∈ Finset.range (numPlayers inp), captInt inp p * xv p t)
  capMax := fun t => max 0 ((∑ p ∈ Finset.range (numPlayers inp), captInt inp p * xv p t) - 1)

/-- Replace one player's Avoid entry, leaving every other column alone. -/
def setAvoid (inp : Input) (p : ℕ) (av : Option String) : Input :=
  { inp with players := inp.players.set p { inp.players.getD p default with avoid := av } }

/-- The four-player scenario roster of the spec: two roles, two teams,
captains on P2 and P4, no avoidances. -/
def exPlayers : List Player :=
  [⟨"P1", 10, 1, false, none⟩, ⟨"P2", 20, 1, true, none⟩,
   ⟨"P3", 15, 2, false, none⟩, ⟨"P4", 25, 2, true, none⟩]

/-- Scenario input with captain policy none. -/
def exInput : Input :=
  { players := exPlayers
    roles := [1, 2]
    roleWeights := [(1, 1), (2, 1)]
    numTeams := 2
    captainPolicy := "none"
    captainHard := false
    conflictWeight := 1
    balanceWeight := 1
    captainWeight := 5
    presets := []
    randomSeed := 42 }

/-- The balanced 35/35 assignment: P1 and P4 on team 1, P2 and P3 on
team 2 (0-based teams 0 and 1). -/
def exAssign : ℕ → ℕ → ℤ := fun p t =>
  if (p = 0 ∧ t = 0) ∨ (p = 1 ∧ t = 1) ∨ (p = 2 ∧ t = 1) ∨ (p = 3 ∧ t = 0) then 1 else 0

/-- A feasible (indeed optimal) valuation for `exInput`. -/
def exVal : Valuation :=
  { x := exAssign
    s := fun _ => 3500
    diff := fun _ => 0
    d := fun _ => 0
    y := fun _ _ _ => 0
    c := fun _ => 1
    capMin := fun _ => 0
    capMax := fun _ => 0 }

/-- The same valuation with the deviation variables slack at 7: still
feasible for the model, but its reported deviation is not |score - target|. -/
def exVal3 : Valuation :=
  { exVal with d := fun _ => 7 }

/-- Pigeonhole scenario: one captain, two teams, one role. -/
def exPlayers2 : List Player :=
  [⟨"A", 10, 1, true, none⟩, ⟨"B", 20, 1, false, none⟩]

/-- Input for the pigeonhole scenario with hard at_least_one policy. -/
def exInput2 : Input :=
  { players := exPlayers2
    roles := [1]
    roleWeights := [(1, 1)]
    numTeams := 2
    captainPolicy := "at_least_one"
    captainHard := true
    conflictWeight := 1
    balanceWeight := 1
    captainWeight := 5
    presets := []
    randomSeed := 42 }

/-- A structurally feasible assignment for `exInput2`: A on team 0, B on
team 1. -/
def exAssign2 : ℕ → ℕ → ℤ := fun p t =>
  if (p = 0 ∧ t = 0) ∨ (p = 1 ∧ t = 1) then 1 else 0

/-- The scenario input with P1 preset to team 2. -/
def exInput4 : Input :=
  { exInput with presets := [("P1", 2)] }

/-- Assignment honouring the preset: P1 and P4 on team 2, P2 and P3 on
team 1. -/
def exAssign4 : ℕ → ℕ → ℤ := fun p t =>
  if (p = 0 ∧ t = 1) ∨ (p = 1 ∧ t = 0) ∨ (p = 2 ∧ t = 0) ∨ (p = 3 ∧ t = 1) then 1 else 0

/-- A feasible valuation for `exInput4`. -/
def exVal4 : Valuation :=
  { x := exAssign4
    s := fun _ => 3500
    diff := fun _ => 0
    d := fun _ => 0
    y := fun _ _ _ => 0
    c := fun _ => 1
    capMin := fun _ => 0
    capMax := fun _ => 0 }

/-- The scenario roster with mutual avoidance between P1 and P2. -/
def exPlayers5 : List Player :=
  [⟨"P1", 10, 1, false, some "P2"⟩, ⟨"P2", 20, 1, true, some "P1"⟩,
   ⟨"P3", 15, 2, false, none⟩, ⟨"P4", 25, 2, true, none⟩]

/-- Input with the mutual avoidance pair. -/
def exInput5 : Input :=
  { exInput with players := exPlayers5 }

/-- One-player instance used to exhibit optimality: a single team forces
the whole assignment. -/
def wInput : Input :=
  { players := [⟨"A", 5, 1, false, none⟩]
    roles := [1]
    roleWeights := []
    numTeams := 1
    captainPolicy := "none"
    captainHard := false
    conflictWeight := 1
    balanceWeight := 1
    captainWeight := 5
    presets := []
    randomSeed := 42 }

/-- The optimal valuation of `wInput`. -/
def wVal : Valuation :=
  { x := fun p t => if p = 0 ∧ t = 0 then 1 else 0
    s := fun _ => 500
    diff := fun _ => 0
    d := fun _ => 0
    y := fun _ _ _ => 0
    c := fun _ => 0
    capMin := fun _ => 1
    capMax := fun _ => 0 }

/-- Input whose role-weight map is inconsistent with the declared roles:
role 1 has no weight entry and role 99 is not a declared role. -/
def exInputW : Input :=
  { players := [⟨"A", 5, 1, false, none⟩]
    roles := [1]
    roleWeights := [(99, 7)]
    numTeams := 1
    captainPolicy := "none"
    captainHard := false
    conflictWeight := 1
    balanceWeight := 1
    captainWeight := 5
    presets := []
    randomSeed := 42 }

/-- Valuation for the one-player, one-team instances. -/
def exValW : Valuation :=
  { x := fun p t => if p = 0 ∧ t = 0 then 1 else 0
    s := fun _ => 500
    diff := fun _ => 0
    d := fun _ => 0
    y := fun _ _ _ => 0
    c := fun _ => 0
    capMin := fun _ => 1
    capMax := fun _ => 0 }

/-- Input with a preset that names a player absent from the roster. -/
def exInputBadPreset : Input :=
  { players := [⟨"A", 5, 1, false, none⟩]
    roles := [1]
    roleWeights := [(1, 1)]
    numTeams := 1
    captainPolicy := "none"
    captainHard := false
    conflictWeight := 1
    balanceWeight := 1
    captainWeight := 5
    presets := [("Z", 1)]
    randomSeed := 42 }

/-- Input whose single player names an unknown avoid target. -/
def exInput10 : Input :=
  { players := [⟨"A", 5, 1, false, some "ghost"⟩]
    roles := [1]
    roleWeights := [(1, 1)]
    numTeams := 1
    captainPolicy := "none"
    captainHard := false
    conflictWeight := 1
    balanceWeight := 1
    captainWeight := 5
    presets := []
    randomSeed := 7 }

/-! ### Arithmetic bridge lemmas -/

theorem ediv_eq_of_bounds {a b q : ℤ} (hb : 0 < b) (h1 : b * q ≤ a) (h2 : a < b * (q + 1)) :
    a / b = q := by
  have h3 := Int.ediv_add_emod a b
  have h4 := Int.emod_nonneg a (ne_of_gt hb)
  have h5 := Int.emod_lt_of_pos a hb
  set d := a / b with hd
  have hq1 : q < d + 1 := by
    have hlt : b * q < b * (d + 1) := by nlinarith
    exact lt_of_mul_lt_mul_left hlt (le_of_lt hb)
  have hq2 : d < q + 1 := by
    have hlt : b * d < b * (q + 1) := by nlinarith
    exact lt_of_mul_lt_mul_left hlt (le_of_lt hb)
  omega

theorem roundHalfEven_congr {a b a' b' : ℤ} (hb : 0 < b) (hb' : 0 < b')
    (hcross : a * b' = a' * b) : roundHalfEven a b = roundHalfEven a' b' := by
  have hbe : (0:ℤ) ≤ b := le_of_lt hb
  have hbe' : (0:ℤ) ≤ b' := le_of_lt hb'
  unfold roundHalfEven
  rw [Int.fdiv_eq_ediv _ hbe, Int.fdiv_eq_ediv _ hbe',
    Int.fmod_eq_emod _ hbe, Int.fmod_eq_emod _ hbe']
  have g1 : b * (a / b) ≤ a := by
    have e := Int.ediv_add_emod a b
    have e2 := Int.emod_nonneg a (ne_of_gt hb)
    omega
  have g2 : a < b * (a / b + 1) := by
    have e := Int.ediv_add_emod a b
    have e2 := Int.emod_lt_of_pos a hb
    nlinarith
  have hdd : a' / b' = a / b := by
    apply ediv_eq_of_bounds hb'
    · have h := mul_le_mul_of_nonneg_left g1 hbe'
      have key : b' * (b * (a / b)) = b * (b' * (a / b)) := by ring
      have key2 : b' * a = b * a' := by linear_combination hcross
      rw [key, key2] at h
      exact le_of_mul_le_mul_left h hb
    · have h := mul_lt_mul_of_pos_left g2 hb'
      have key : b' * (b * (a / b + 1)) = b * (b' * (a / b + 1)) := by ring
      have key2 : b' * a = b * a' := by linear_combination hcross
      rw [key, key2] at h
      exact lt_of_mul_lt_mul_left h hbe
  have hra : a % b = a - b * (a / b) := by
    have e := Int.ediv_add_emod a b
    omega
  have hra' : a' % b' = a' - b' * (a' / b') := by
    have e := Int.ediv_add_emod a' b'
    omega
  have hiff1 : (2 * (a % b) < b) ↔ (2 * (a' % b') < b') := by
    rw [hra, hra', hdd]
    constructor
    · intro h
      have h2 := mul_lt_mul_of_pos_left h hb'
      have key : b' * (2 * (a - b * (a / b))) = b * (2 * (a' - b' * (a / b))) := by
        linear_combination 2 * hcross
      have key2 : b' * b = b * b' := by ring
      rw [key, key2] at h2
      exact lt_of_mul_lt_mul_left h2 hbe
    · intro h
      have h2 := mul_lt_mul_of_pos_left h hb
      have key : b * (2 * (a' - b' * (a / b))) = b' * (2 * (a - b * (a / b))) := by
        linear_combination (-2) * hcross
      have key2 : b * b' = b' * b := by ring
      rw [key, key2] at h2
      exact lt_of_mul_lt_mul_left h2 hbe'
  have hiff2 : (b < 2 * (a % b)) ↔ (b' < 2 * (a' % b')) := by
    rw [hra, hra', hdd]
    constructor
    · intro h
      have h2 := mul_lt_mul_of_pos_left h hb'
      have key : b' * (2 * (a - b * (a / b))) = b * (2 * (a' - b' * (a / b))) := by
        linear_combination 2 * hcross
      have key2 : b' * b = b * b' := by ring
      rw [key, key2] at h2
      exact lt_of_mul_lt_mul_left h2 hbe
    · intro h
      have h2 := mul_lt_mul_of_pos_left h hb
      have key : b * (2 * (a' - b' * (a / b))) = b' * (2 * (a - b * (a / b))) := by
        linear_combination (-2) * hcross
      have key2 : b * b' = b' * b := by ring
      rw [key, key2] at h2
      exact lt_of_mul_lt_mul_left h2 hbe'
  rw [hdd]
  exact if_congr hiff1 rfl (if_congr hiff2 rfl rfl)

theorem rat_num_eq_mul_den (r : ℚ) : (r.num : ℚ) = r * (r.den : ℚ) := by
  have h : (r.num : ℚ) / (r.den : ℚ) = r := Rat.num_div_den r
  have hd : ((r.den : ℚ)) ≠ 0 := Nat.cast_ne_zero.mpr r.den_nz
  rw [div_eq_iff hd] at h
  rw [h]

theorem scaledWs_eq_int (inp : Input) (p : ℕ) : scaledWs inp p = scaledWsInt inp p := by
  unfold scaledWs scaledWsInt npRound weightedSkill
  set sk := (playerAt inp p).skill with hsk
  set w := lookupWeight inp.roleWeights (pos inp p) with hw
  set q : ℚ := sk * w * ((SCALE : ℤ) : ℚ) with hq
  have hdq : (0:ℤ) < (q.den : ℤ) := by exact_mod_cast q.den_pos
  have hdsw : (0:ℤ) < ((sk.den : ℤ) * (w.den : ℤ)) := by
    have h1 : (0:ℤ) < (sk.den : ℤ) := by exact_mod_cast sk.den_pos
    have h2 : (0:ℤ) < (w.den : ℤ) := by exact_mod_cast w.den_pos
    positivity
  apply roundHalfEven_congr hdq hdsw
  have key : (q.num : ℚ) * (((sk.den : ℤ) : ℚ) * ((w.den : ℤ) : ℚ))
      = (((sk.num * w.num * SCALE : ℤ) : ℚ)) * ((q.den : ℤ) : ℚ) := by
    push_cast
    rw [rat_num_eq_mul_den q, rat_num_eq_mul_den sk, rat_num_eq_mul_den w, hq]
    push_cast
    ring
  exact_mod_cast key

theorem totalScore_eq_int (inp : Input) :
    totalScore inp = ∑ p ∈ Finset.range (numPlayers inp), scaledWsInt inp p :=
  Finset.sum_congr rfl fun p _ => scaledWs_eq_int inp p

theorem target_eq_int (inp : Input) :
    target inp
      = Int.fdiv (∑ p ∈ Finset.range (numPlayers inp), scaledWsInt inp p) (inp.numTeams : ℤ) := by
  unfold target
  rw [totalScore_eq_int]

theorem roundHalfEven_nearest {a b : ℤ} (hb : 0 < b) :
    |((roundHalfEven a b : ℤ) : ℚ) - (a : ℚ) / (b : ℚ)| ≤ 1 / 2 := by
  have hbe : (0:ℤ) ≤ b := le_of_lt hb
  have hbq : (0:ℚ) < (b:ℚ) := by exact_mod_cast hb
  unfold roundHalfEven
  rw [Int.fdiv_eq_ediv _ hbe, Int.fmod_eq_emod _ hbe]
  set d := a / b with hd
  set r := a % b with hr
  have h1 : b * d + r = a := Int.ediv_add_emod a b
  have h2 : (0:ℤ) ≤ r := Int.emod_nonneg a (ne_of_gt hb)
  have h3 : r < b := Int.emod_lt_of_pos a hb
  have h1q : (b:ℚ) * (d:ℚ) + (r:ℚ) = (a:ℚ) := by exact_mod_cast h1
  have h2q : (0:ℚ) ≤ (r:ℚ) := by exact_mod_cast h2
  have h3q : (r:ℚ) < (b:ℚ) := by exact_mod_cast h3
  have ha' : (a:ℚ) = (d:ℚ) * (b:ℚ) + (r:ℚ) := by linear_combination -h1q
  have hab : (a:ℚ) / (b:ℚ) = (d:ℚ) + (r:ℚ) / (b:ℚ) := by
    rw [ha', add_div, mul_div_cancel_right₀ _ (ne_of_gt hbq)]
  split_ifs with hc1 hc2 hc3
  · have hcq : 2 * (r:ℚ) < (b:ℚ) := by exact_mod_cast hc1
    have hhalf : (r:ℚ) / (b:ℚ) ≤ 1 / 2 := by
      rw [div_le_iff hbq]
      linarith
    have hge : (0:ℚ) ≤ (r:ℚ) / (b:ℚ) := div_nonneg h2q (le_of_lt hbq)
    rw [hab, abs_le]
    constructor <;> push_cast <;> linarith
  · have hcq : (b:ℚ) < 2 * (r:ℚ) := by exact_mod_cast hc2
    have hhalf : 1 / 2 ≤ (r:ℚ) / (b:ℚ) := by
      rw [le_div_iff hbq]
      linarith
    have hlt1 : (r:ℚ) / (b:ℚ) < 1 := by
      rw [div_lt_one hbq]
      exact h3q
    rw [hab, abs_le]
    constructor <;> push_cast <;> linarith
  · have heq : 2 * r = b := by omega
    have heqq : 2 * (r:ℚ) = (b:ℚ) := by exact_mod_cast heq
    have hhalf : (r:ℚ) / (b:ℚ) ≤ 1 / 2 := by
      rw [div_le_iff hbq]
      linarith
    have hge : (0:ℚ) ≤ (r:ℚ) / (b:ℚ) := div_nonneg h2q (le_of_lt hbq)
    rw [hab, abs_le]
    constructor <;> push_cast <;> linarith
  · have hge2 : b ≤ 2 * r := by omega
    have hcq : (b:ℚ) ≤ 2 * (r:ℚ) := by exact_mod_cast hge2
    have hhalf : 1 / 2 ≤ (r:ℚ) / (b:ℚ) := by
      rw [le_div_iff hbq]
      linarith
    have hlt1 : (r:ℚ) / (b:ℚ) < 1 := by
      rw [div_lt_one hbq]
      exact h3q
    rw [hab, abs_le]
    constructor <;> push_cast <;> linarith

theorem npRound_nearest (q : ℚ) : |((npRound q : ℤ) : ℚ) - q| ≤ 1 / 2 := by
  have hb : (0:ℤ) < (q.den : ℤ) := by exact_mod_cast q.den_pos
  have h := roundHalfEven_nearest (a := q.num) (b := (q.den : ℤ)) hb
  unfold npRound
  have hcast : ((q.den : ℤ) : ℚ) = (q.den : ℚ) := by push_cast; rfl
  rw [hcast, Rat.num_div_den] at h
  exact h

/-! ### Extraction and index lemmas -/

theorem sum01_exists_unique {s : Finset ℕ} {f : ℕ → ℤ}
    (hb : ∀ i ∈ s, f i = 0 ∨ f i = 1) (hs : ∑ i ∈ s, f i = 1) :
    ∃! i, i ∈ s ∧ f i = 1 := by
  have hex : ∃ i ∈ s, f i = 1 := by
    by_contra h
    push_neg at h
    have hz : ∑ i ∈ s, f i = 0 :=
      Finset.sum_eq_zero (fun i hi => (hb i hi).resolve_right (h i hi))
    omega
  obtain ⟨i0, hi0s, hi0⟩ := hex
  refine ⟨i0, ⟨hi0s, hi0⟩, ?_⟩
  rintro j ⟨hjs, hj⟩
  by_contra hne
  have hsub : ({j, i0} : Finset ℕ) ⊆ s := by
    intro z hz
    rcases Finset.mem_insert.mp hz with rfl | hz
    · exact hjs
    · rw [Finset.mem_singleton] at hz
      exact hz ▸ hi0s
  have h2 : (∑ i ∈ ({j, i0} : Finset ℕ), f i) = 2 := by
    rw [Finset.sum_pair hne]
    omega
  have hle : (∑ i ∈ ({j, i0} : Finset ℕ), f i) ≤ ∑ i ∈ s, f i :=
    Finset.sum_le_sum_of_subset_of_nonneg hsub
      (fun i hi _ => by rcases hb i hi with h | h <;> omega)
  omega

theorem teamFor_eq (v : Valuation) (T p t0 : ℕ) (h1 : t0 < T) (hx : v.x p t0 = 1)
    (huniq : ∀ u < T, v.x p u = 1 → u = t0) : teamFor v T p = t0 + 1 := by
  unfold teamFor
  have hsome : ((List.range T).find? (fun t => decide (v.x p t = 1))).isSome := by
    rw [List.find?_isSome]
    exact ⟨t0, List.mem_range.mpr h1, by simp [hx]⟩
  obtain ⟨a, ha⟩ := Option.isSome_iff_exists.mp hsome
  have hxa : v.x p a = 1 := by
    have hp := List.find?_some ha
    simpa using hp
  have haT : a < T := List.mem_range.mp (List.mem_of_find?_eq_some ha)
  rw [ha]
  simp [huniq a haT hxa]

theorem x_eq_one_of_teamFor (v : Valuation) (T p t : ℕ) (h : teamFor v T p = t + 1) :
    v.x p t = 1 ∧ t < T := by
  unfold teamFor at h
  rcases hf : (List.range T).find? (fun u => decide (v.x p u = 1)) with _ | a
  · rw [hf] at h
    simp at h
  · rw [hf] at h
    simp only [Option.some.injEq] at h
    have hat : a = t := by omega
    subst hat
    have hxa : v.x p a = 1 := by
      have hp := List.find?_some hf
      simpa using hp
    exact ⟨hxa, List.mem_range.mp (List.mem_of_find?_eq_some hf)⟩

theorem nameIdx_spec {inp : Input} {n : String} {pi : ℕ} (h : nameIdx inp n = some pi) :
    pi < numPlayers inp ∧ (playerAt inp pi).name = n := by
  unfold nameIdx at h
  have hmem : pi ∈ (List.range (numPlayers inp)).filter
      (fun i => decide ((playerAt inp i).name = n)) := by
    have hm : pi ∈ ((List.range (numPlayers inp)).filter
        (fun i => decide ((playerAt inp i).name = n))).getLast? := by
      rw [h]
      rfl
    obtain ⟨hne, heq⟩ := List.mem_getLast?_eq_getLast hm
    rw [heq]
    exact List.getLast_mem hne
  rw [List.mem_filter] at hmem
  exact ⟨List.mem_range.mp hmem.1, of_decide_eq_true hmem.2⟩

theorem avoidPairs_bounds {inp : Input} {pr : ℕ × ℕ} (h : pr ∈ avoidPairs inp) :
    pr.1 < numPlayers inp ∧ pr.2 < numPlayers inp := by
  unfold avoidPairs at h
  rw [List.mem_filterMap] at h
  obtain ⟨p, _, hf⟩ := h
  rcases hav : (playerAt inp p).avoid with _ | b
  · rw [hav] at hf
    simp at hf
  · rw [hav] at hf
    dsimp only at hf
    rcases hb : nameIdx inp b with _ | pb
    · rw [hb] at hf
      dsimp only at hf
      contradiction
    · rw [hb] at hf
      dsimp only at hf
      rcases ha : nameIdx inp ((playerAt inp p).name) with _ | pa
      · rw [ha] at hf
        simp at hf
      · rw [ha] at hf
        dsimp only [Option.map] at hf
        injection hf with hf2
        subst hf2
        exact ⟨(nameIdx_spec ha).1, (nameIdx_spec hb).1⟩

theorem avoidPairs_mem {inp : Input} {p q : ℕ} (hp : p < numPlayers inp)
    (hself : nameIdx inp ((playerAt inp p).name) = some p)
    {b : String} (hav : (playerAt inp p).avoid = some b)
    (hb : nameIdx inp b = some q) : (p, q) ∈ avoidPairs inp := by
  unfold avoidPairs
  rw [List.mem_filterMap]
  refine ⟨p, List.mem_range.mpr hp, ?_⟩
  rw [hav]
  dsimp only
  rw [hb]
  dsimp only
  rw [hself]
  rfl

/-! ### Feasibility completion -/

theorem rolesSorted_nodup (inp : Input) : (rolesSorted inp).Nodup :=
  ((List.perm_insertionSort (· ≤ ·) (inp.roles.dedup)).symm).nodup (List.nodup_dedup _)

theorem team_size {inp : Input} {xv : ℕ → ℕ → ℤ} (h : StructuralSat inp xv)
    (hposr : ∀ p < numPlayers inp, pos inp p ∈ rolesSorted inp)
    {t : ℕ} (ht : t < inp.numTeams) :
    ∑ p ∈ Finset.range (numPlayers inp), xv p t = (numRoles inp : ℤ) := by
  obtain ⟨_, _, hrole, _⟩ := h
  have hmap : ∀ p ∈ Finset.range (numPlayers inp), pos inp p ∈ (rolesSorted inp).toFinset := by
    intro p hp
    rw [List.mem_toFinset]
    exact hposr p (Finset.mem_range.mp hp)
  have hfib := Finset.sum_fiberwise_of_maps_to hmap (fun p => xv p t)
  rw [← hfib]
  have hone : ∀ r ∈ (rolesSorted inp).toFinset,
      (∑ p ∈ (Finset.range (numPlayers inp)).filter (fun p => pos inp p = r), xv p t) = 1 :=
    fun r hr => hrole t ht r (List.mem_toFinset.mp hr)
  rw [Finset.sum_congr rfl hone, Finset.sum_const,
    List.toFinset_card_of_nodup (rolesSorted_nodup inp)]
  simp [numRoles]

theorem target_nonneg_le (inp : Input) (hT : 0 < inp.numTeams) (h0 : 0 ≤ totalScore inp) :
    0 ≤ target inp ∧ target inp ≤ totalScore inp := by
  have hTz : (0:ℤ) < (inp.numTeams : ℤ) := by exact_mod_cast hT
  unfold target
  rw [Int.fdiv_eq_ediv _ (le_of_lt hTz)]
  exact ⟨Int.ediv_nonneg h0 (le_of_lt hTz), Int.ediv_le_self _ h0⟩

theorem captInt_bounds (inp : Input) (p : ℕ) : 0 ≤ captInt inp p ∧ captInt inp p ≤ 1 := by
  unfold captInt
  split <;> omega

theorem completeVal_satisfies {inp : Input} {xv : ℕ → ℕ → ℤ}
    (hstruct : StructuralSat inp xv)
    (hT : 0 < inp.numTeams)
    (hsc : ∀ p < numPlayers inp, 0 ≤ scaledWs inp p)
    (htot : totalScore inp ≤ 10 ^ 9)
    (hposr : ∀ p < numPlayers inp, pos inp p ∈ rolesSorted inp)
    (hsoft : effectiveCaptainHard inp = false) :
    SatisfiesModel inp (completeVal inp xv) := by
  obtain ⟨hxb, hrow, hrole, hpre⟩ := hstruct
  have hx0 : ∀ p < numPlayers inp, ∀ t < inp.numTeams, 0 ≤ xv p t := by
    intro p hp t ht
    rcases hxb p hp t ht with h | h <;> omega
  have hx1 : ∀ p < numPlayers inp, ∀ t < inp.numTeams, xv p t ≤ 1 := by
    intro p hp t ht
    rcases hxb p hp t ht with h | h <;> omega
  have htot0 : 0 ≤ totalScore inp :=
    Finset.sum_nonneg (fun p hp => hsc p (Finset.mem_range.mp hp))
  obtain ⟨htg0, htgle⟩ := target_nonneg_le inp hT htot0
  have hs0 : ∀ t < inp.numTeams,
      0 ≤ ∑ p ∈ Finset.range (numPlayers inp), scaledWs inp p * xv p t := by
    intro t ht
    apply Finset.sum_nonneg
    intro p hp
    exact mul_nonneg (hsc p (Finset.mem_range.mp hp)) (hx0 p (Finset.mem_range.mp hp) t ht)
  have hsle : ∀ t < inp.numTeams,
      (∑ p ∈ Finset.range (numPlayers inp), scaledWs inp p * xv p t) ≤ totalScore inp := by
    intro t ht
    unfold totalScore
    apply Finset.sum_le_sum
    intro p hp
    have hp' := Finset.mem_range.mp hp
    calc scaledWs inp p * xv p t
        ≤ scaledWs inp p * 1 := mul_le_mul_of_nonneg_left (hx1 p hp' t ht) (hsc p hp')
      _ = scaledWs inp p := mul_one _
  have hc0 : ∀ t < inp.numTeams,
      0 ≤ ∑ p ∈ Finset.range (numPlayers inp), captInt inp p * xv p t := by
    intro t ht
    apply Finset.sum_nonneg
    intro p hp
    exact mul_nonneg (captInt_bounds inp p).1 (hx0 p (Finset.mem_range.mp hp) t ht)
  have hcR : ∀ t < inp.numTeams,
      (∑ p ∈ Finset.range (numPlayers inp), captInt inp p * xv p t) ≤ (numRoles inp : ℤ) := by
    intro t ht
    have h1 : (∑ p ∈ Finset.range (numPlayers inp), captInt inp p * xv p t)
        ≤ ∑ p ∈ Finset.range (numPlayers inp), xv p t := by
      apply Finset.sum_le_sum
      intro p hp
      have hp' := Finset.mem_range.mp hp
      calc captInt inp p * xv p t
          ≤ 1 * xv p t :=
            mul_le_mul_of_nonneg_right (captInt_bounds inp p).2 (hx0 p hp' t ht)
        _ = xv p t := one_mul _
    rw [team_size ⟨hxb, hrow, hrole, hpre⟩ hposr ht] at h1
    exact h1
  refine ⟨⟨hxb, hrow, hrole, hpre⟩, ?_, ?_, ?_, ?_⟩
  · intro t ht
    dsimp only [completeVal]
    refine ⟨⟨hs0 t ht, le_trans (hsle t ht) htot⟩, rfl, ?_, rfl, ?_, ?_, ?_⟩
    · constructor <;> [linarith [hs0 t ht, hsle t ht, htgle, htot]; linarith [hs0 t ht, hsle t ht, htg0, htot]]
    · exact ⟨abs_nonneg _, by
        rw [abs_le]
        constructor <;> [linarith [hs0 t ht, htgle, htot]; linarith [hsle t ht, htg0, htot]]⟩
    · exact le_abs_self _
    · calc -((∑ p ∈ Finset.range (numPlayers inp), scaledWs inp p * xv p t) - target inp)
          ≤ |-((∑ p ∈ Finset.range (numPlayers inp), scaledWs inp p * xv p t) - target inp)| :=
            le_abs_self _
        _ = |(∑ p ∈ Finset.range (numPlayers inp), scaledWs inp p * xv p t) - target inp| :=
            abs_neg _
  · intro pr hpr t ht
    obtain ⟨hp1, hp2⟩ := avoidPairs_bounds hpr
    dsimp only [completeVal]
    rcases hxb pr.1 hp1 t ht with h1 | h1 <;> rcases hxb pr.2 hp2 t ht with h2 | h2 <;>
      rw [h1, h2] <;> exact ⟨by norm_num [BoolVar], by norm_num, by norm_num, by norm_num⟩
  · intro t ht
    dsimp only [completeVal]
    exact ⟨⟨hc0 t ht, hcR t ht⟩, rfl⟩
  · refine ⟨?_, ?_, ?_, ?_⟩
    · intro _ hh
      rw [hsoft] at hh
      cases hh
    · intro _ _ t ht
      dsimp only [completeVal]
      refine ⟨⟨le_max_left _ _, max_le (by norm_num) (by linarith [hc0 t ht])⟩, le_max_right _ _⟩
    · intro _ hh
      rw [hsoft] at hh
      cases hh
    · intro _ _ t ht
      dsimp only [completeVal]
      refine ⟨⟨le_max_left _ _, max_le ?_ (by linarith [hcR t ht])⟩, le_max_right _ _⟩
      exact_mod_cast Nat.zero_le (numRoles inp)

/-! ### Claim theorems -/

/-- C1: for every valuation satisfying the built model, every player is
assigned exactly one team label in `1..num_teams` in the extracted output
(the indicator is set at exactly one team, and the extracted label is that
team plus one), and for every team and every role exactly one of the
players holding that role is assigned that team's label. -/
theorem claim_C1 (inp : Input) (v : Valuation) (h : SatisfiesModel inp v) :
    (∀ p < numPlayers inp, ∃ t0 < inp.numTeams, v.x p t0 = 1
      ∧ teamFor v inp.numTeams p = t0 + 1
      ∧ 1 ≤ teamFor v inp.numTeams p ∧ teamFor v inp.numTeams p ≤ inp.numTeams
      ∧ ∀ u < inp.numTeams, v.x p u = 1 → u = t0)
    ∧ (∀ t < inp.numTeams, ∀ r ∈ rolesSorted inp,
        ∃! p, p < numPlayers inp ∧ pos inp p = r ∧ teamFor v inp.numTeams p = t + 1) := by
  obtain ⟨⟨hxb, hrow, hrole, _⟩, _, _, _, _⟩ := h
  have rowUnique : ∀ p < numPlayers inp,
      ∃ t0 < inp.numTeams, v.x p t0 = 1 ∧ ∀ u < inp.numTeams, v.x p u = 1 → u = t0 := by
    intro p hp
    have hb' : ∀ t ∈ Finset.range inp.numTeams, v.x p t = 0 ∨ v.x p t = 1 :=
      fun t ht => hxb p hp t (Finset.mem_range.mp ht)
    obtain ⟨t0, ⟨ht0m, ht0x⟩, huni⟩ := sum01_exists_unique hb' (hrow p hp)
    exact ⟨t0, Finset.mem_range.mp ht0m, ht0x,
      fun u hu hxu => huni u ⟨Finset.mem_range.mpr hu, hxu⟩⟩
  constructor
  · intro p hp
    obtain ⟨t0, ht0, hx0, huniq⟩ := rowUnique p hp
    have hteq := teamFor_eq v inp.numTeams p t0 ht0 hx0 huniq
    refine ⟨t0, ht0, hx0, hteq, ?_, ?_, huniq⟩
    · omega
    · omega
  · intro t ht r hr
    have hb2 : ∀ p ∈ (Finset.range (numPlayers inp)).filter (fun p => pos inp p = r),
        v.x p t = 0 ∨ v.x p t = 1 :=
      fun p hp => hxb p (Finset.mem_range.mp (Finset.mem_filter.mp hp).1) t ht
    obtain ⟨p0, ⟨hp0mem, hp0x⟩, huni2⟩ := sum01_exists_unique hb2 (hrole t ht r hr)
    obtain ⟨hp0rng, hp0pos⟩ := Finset.mem_filter.mp hp0mem
    have hp0P : p0 < numPlayers inp := Finset.mem_range.mp hp0rng
    obtain ⟨t0, ht0, hx0, huniq⟩ := rowUnique p0 hp0P
    have htt0 : t = t0 := huniq t ht hp0x
    subst htt0
    have hteq := teamFor_eq v inp.numTeams p0 t ht hx0 huniq
    refine ⟨p0, ⟨hp0P, hp0pos, hteq⟩, ?_⟩
    rintro q ⟨hqP, hqpos, hqteam⟩
    obtain ⟨hqx, _⟩ := x_eq_one_of_teamFor v inp.numTeams q t hqteam
    exact huni2 q ⟨Finset.mem_filter.mpr ⟨Finset.mem_range.mpr hqP, hqpos⟩, hqx⟩

/-- Witness for C1 at the concrete four-player scenario instance. -/
theorem claim_C1_witness :
    SatisfiesModel exInput exVal
      ∧ 1 ≤ teamFor exVal exInput.numTeams 0
      ∧ teamFor exVal exInput.numTeams 0 ≤ exInput.numTeams := by
  have hs : SatisfiesModel exInput exVal := by
    simp only [SatisfiesModel, StructuralSat, ScoreSat, ConflictSat, CaptainCountSat,
      CaptainPolicySat, scaledWs_eq_int, target_eq_int]
    decide
  obtain ⟨t0, ht0, hx0, hteq, h1, h2, huniq⟩ := (claim_C1 exInput exVal hs).1 0 (by decide)
  exact ⟨hs, h1, h2⟩

/-- C4: for every preset entry naming a player present in the roster with a
team index in `1..num_teams`, in any feasible valuation the player's
extracted Team label equals the configured index, and the preset pins the
player's indicator to 1 for the target team and 0 for all other teams. -/
theorem claim_C4 (inp : Input) (v : Valuation) (h : SatisfiesModel inp v)
    (name : String) (t1 : ℤ) (hmem : (name, t1) ∈ inp.presets)
    (pi : ℕ) (hidx : nameIdx inp name = some pi)
    (hlo : 1 ≤ t1) (hhi : t1 ≤ (inp.numTeams : ℤ)) :
    (teamFor v inp.numTeams pi : ℤ) = t1
      ∧ ∀ tt < inp.numTeams, v.x pi tt = if (tt : ℤ) = t1 - 1 then 1 else 0 := by
  obtain ⟨⟨hxb, hrow, hrole, hpre⟩, _, _, _, _⟩ := h
  have hpiP : pi < numPlayers inp := (nameIdx_spec hidx).1
  have hpin := hpre (name, t1) hmem pi hpiP hidx
  set t0 : ℕ := (t1 - 1).toNat with ht0def
  have ht0z : (t0 : ℤ) = t1 - 1 := by omega
  have ht0T : t0 < inp.numTeams := by omega
  have hx1 : v.x pi t0 = 1 := by
    rw [hpin t0 ht0T, if_pos ht0z]
  have huniq : ∀ u < inp.numTeams, v.x pi u = 1 → u = t0 := by
    intro u hu hxu
    rw [hpin u hu] at hxu
    by_contra hne
    have hz : ¬ ((u : ℤ) = t1 - 1) := by omega
    rw [if_neg hz] at hxu
    exact absurd hxu (by norm_num)
  have hteq := teamFor_eq v inp.numTeams pi t0 ht0T hx1 huniq
  refine ⟨?_, hpin⟩
  rw [hteq]
  push_cast
  omega

/-- Witness for C4: the preset pinning P1 to team 2 yields Team label 2. -/
theorem claim_C4_witness :
    SatisfiesModel exInput4 exVal4 ∧ (teamFor exVal4 exInput4.numTeams 0 : ℤ) = 2 := by
  have hs : SatisfiesModel exInput4 exVal4 := by
    simp only [SatisfiesModel, StructuralSat, ScoreSat, ConflictSat, CaptainCountSat,
      CaptainPolicySat, scaledWs_eq_int, target_eq_int]
    decide
  exact ⟨hs, (claim_C4 exInput4 exVal4 hs "P1" 2 (by decide) 0 (by decide)
    (by decide) (by decide)).1⟩

/-- C5: in any feasible valuation, each co-placement variable equals the
product (logical AND) of its two endpoint indicators; the conflict penalty
sum counts exactly the (directed pair, team) combinations sharing a team;
and a mutually declared avoidance yields both directed pairs, whose two
variables are both set when the players share a team, penalizing it
twice. -/
theorem claim_C5 (inp : Input) (v : Valuation) (h : SatisfiesModel inp v) :
    (∀ pr ∈ avoidPairs inp, ∀ t < inp.numTeams,
      v.y pr.1 pr.2 t = v.x pr.1 t * v.x pr.2 t)
    ∧ conflictSum inp v
        = ((avoidPairs inp).map
            (fun pr => ∑ t ∈ Finset.range inp.numTeams, v.x pr.1 t * v.x pr.2 t)).sum
    ∧ (∀ p q : ℕ, p < numPlayers inp → q < numPlayers inp →
        nameIdx inp ((playerAt inp p).name) = some p →
        nameIdx inp ((playerAt inp q).name) = some q →
        (playerAt inp p).avoid = some ((playerAt inp q).name) →
        (playerAt inp q).avoid = some ((playerAt inp p).name) →
        (p, q) ∈ avoidPairs inp ∧ (q, p) ∈ avoidPairs inp
          ∧ ∀ t < inp.numTeams, v.x p t = 1 → v.x q t = 1 →
              v.y p q t + v.y q p t = 2) := by
  obtain ⟨⟨hxb, _, _, _⟩, _, hconf, _, _⟩ := h
  have hand : ∀ pr ∈ avoidPairs inp, ∀ t < inp.numTeams,
      v.y pr.1 pr.2 t = v.x pr.1 t * v.x pr.2 t := by
    intro pr hpr t ht
    obtain ⟨hp1, hp2⟩ := avoidPairs_bounds hpr
    obtain ⟨hyb, hy1, hy2, hy3⟩ := hconf pr hpr t ht
    rcases hxb pr.1 hp1 t ht with h1 | h1 <;> rcases hxb pr.2 hp2 t ht with h2 | h2 <;>
      rcases hyb with hy | hy <;> rw [h1, h2] <;> norm_num <;> omega
  refine ⟨hand, ?_, ?_⟩
  · unfold conflictSum
    congr 1
    apply List.map_congr_left
    intro pr hpr
    exact Finset.sum_congr rfl (fun t ht => hand pr hpr t (Finset.mem_range.mp ht))
  · intro p q hp hq hselfp hselfq havp havq
    have hm1 : (p, q) ∈ avoidPairs inp := avoidPairs_mem hp hselfp havp hselfq
    have hm2 : (q, p) ∈ avoidPairs inp := avoidPairs_mem hq hselfq havq hselfp
    refine ⟨hm1, hm2, ?_⟩
    intro t ht hxp hxq
    have e1 := hand (p, q) hm1 t ht
    have e2 := hand (q, p) hm2 t ht
    dsimp only at e1 e2
    rw [e1, e2, hxp, hxq]
    norm_num

/-- Witness for C5: the mutual avoidance between P1 and P2 produces both
directed pairs. -/
theorem claim_C5_witness :
    SatisfiesModel exInput5 exVal
      ∧ (0, 1) ∈ avoidPairs exInput5 ∧ (1, 0) ∈ avoidPairs exInput5 := by
  have hs : SatisfiesModel exInput5 exVal := by
    simp only [SatisfiesModel, StructuralSat, ScoreSat, ConflictSat, CaptainCountSat,
      CaptainPolicySat, scaledWs_eq_int, target_eq_int]
    decide
  have h3 := (claim_C5 exInput5 exVal hs).2.2 0 1 (by decide) (by decide)
    (by decide) (by decide) (by decide) (by decide)
  exact ⟨hs, h3.1, h3.2.1⟩

/-- C8: when the solver reports the infeasible-or-unknown status and
validation passed, the core returns the fatal `RuntimeError` message and no
assignment or diagnostics. -/
theorem claim_C8 (inp : Input) (v : Valuation) (hok : buildChecks inp = .ok ()) :
    run inp SolveStatus.infeasibleOrUnknown v
      = .error "No feasible assignment found. Try relaxing constraints or presets." := by
  unfold run
  rw [hok]
  rfl

/-- Witness for C8 at the concrete scenario instance. -/
theorem claim_C8_witness :
    buildChecks exInput = .ok ()
      ∧ run exInput SolveStatus.infeasibleOrUnknown exVal
          = .error "No feasible assignment found. Try relaxing constraints or presets." :=
  ⟨by decide, claim_C8 exInput exVal (by decide)⟩

/-- C9 counterexample: the scale factor, the time budget and the worker
count are hardcoded constants of the core, independent of every
caller-supplied input, so no caller can pin the worker count to 1. -/
theorem claim_C9_counterexample :
    solverNumWorkers = (fun _ : Input => (8 : ℕ))
      ∧ solverMaxTimeSeconds = (fun _ : Input => (30 : ℚ))
      ∧ SCALE = 100
      ∧ solverNumWorkers exInput = 8
      ∧ (8 : ℕ) ≠ 1
      ∧ ¬ ∃ inp : Input, solverNumWorkers inp = 1 := by
  refine ⟨rfl, rfl, rfl, rfl, by decide, ?_⟩
  rintro ⟨inp, hw⟩
  simp [solverNumWorkers] at hw

/-- C9 amended: only the random seed is caller-supplied; the solve call
uses the fixed 30-second budget and 8 workers, and scoring uses the fixed
scale factor 100. -/
theorem claim_C9_amended (inp : Input) :
    solverRandomSeed inp = inp.randomSeed
      ∧ solverNumWorkers inp = 8
      ∧ solverMaxTimeSeconds inp = 30
      ∧ SCALE = 100 :=
  ⟨rfl, rfl, rfl, rfl⟩

theorem except_ok_or_error {ε : Type} (x : Except ε Unit) :
    x = .ok () ∨ ∃ e, x = .error e := by
  cases x with
  | error e => exact .inr ⟨e, rfl⟩
  | ok u =>
    cases u
    exact .inl rfl

theorem checkPresetsList_ok_iff (inp : Input) (l : List (String × ℤ)) :
    checkPresetsList inp l = .ok ()
      ↔ ∀ pr ∈ l, (∃ pi, nameIdx inp pr.1 = some pi)
          ∧ 1 ≤ pr.2 ∧ pr.2 ≤ (inp.numTeams : ℤ) := by
  induction l with
  | nil => simp [checkPresetsList]
  | cons hd tl ih =>
    obtain ⟨n, t1⟩ := hd
    unfold checkPresetsList
    rcases hni : nameIdx inp n with _ | pi
    · dsimp only
      constructor
      · intro h
        cases h
      · intro h
        obtain ⟨pi, hpi⟩ := (h (n, t1) (List.mem_cons_self _ _)).1
        rw [hni] at hpi
        cases hpi
    · dsimp only
      split_ifs with hcond
      · rw [ih]
        constructor
        · intro h pr hpr
          rcases List.mem_cons.mp hpr with rfl | hm
          · exact ⟨⟨pi, hni⟩, hcond.1, hcond.2⟩
          · exact h pr hm
        · intro h pr hpr
          exact h pr (List.mem_cons_of_mem _ hpr)
      · constructor
        · intro h
          cases h
        · intro h
          exact absurd (h (n, t1) (List.mem_cons_self _ _)).2 hcond

/-- C7 counterexample: a role-weight map inconsistent with the declared
roles (no entry for role 1, an entry for undeclared role 99) raises no
error: validation passes, the missing weight silently defaults to 1, and
the run returns a normal assignment and diagnostics. -/
theorem claim_C7_counterexample :
    exInputW.roles = [1]
      ∧ exInputW.roleWeights = [(99, 7)]
      ∧ lookupWeight exInputW.roleWeights 1 = 1
      ∧ buildChecks exInputW = .ok ()
      ∧ run exInputW SolveStatus.optimal exValW
          = .ok (assignments exInputW exValW, diagnosticsOf exInputW SolveStatus.optimal exValW) :=
  ⟨rfl, rfl, rfl, by decide, rfl⟩

/-- C7 amended: a preset referencing an unknown player, a preset team index
outside `1..num_teams`, and an unknown captain-policy name each make the
eager validation fail, and any validation failure aborts the run with that
error regardless of the solver outcome, returning no assignment and no
diagnostics; an inconsistent role-weight map is not validated (missing
roles default to weight 1). -/
theorem claim_C7_amended (inp : Input) :
    ((∃ pr ∈ inp.presets, nameIdx inp pr.1 = none) → ∃ e, buildChecks inp = .error e)
    ∧ ((∃ pr ∈ inp.presets, ¬(1 ≤ pr.2 ∧ pr.2 ≤ (inp.numTeams : ℤ))) →
        ∃ e, buildChecks inp = .error e)
    ∧ (inp.captainPolicy ≠ "none" → inp.captainPolicy ≠ "at_least_one" →
        inp.captainPolicy ≠ "separate" → ∃ e, buildChecks inp = .error e)
    ∧ (∀ e, buildChecks inp = .error e → ∀ st v, run inp st v = .error e) := by
  have herr : ∀ e, checkPresetsList inp inp.presets = .error e → buildChecks inp = .error e := by
    intro e he
    unfold buildChecks
    rw [he]
  refine ⟨?_, ?_, ?_, ?_⟩
  · rintro ⟨pr, hm, hno⟩
    rcases except_ok_or_error (checkPresetsList inp inp.presets) with hok | ⟨e, he⟩
    · obtain ⟨⟨pi, hpi⟩, _⟩ := (checkPresetsList_ok_iff inp inp.presets).mp hok pr hm
      rw [hno] at hpi
      cases hpi
    · exact ⟨e, herr e he⟩
  · rintro ⟨pr, hm, hbad⟩
    rcases except_ok_or_error (checkPresetsList inp inp.presets) with hok | ⟨e, he⟩
    · exact absurd ((checkPresetsList_ok_iff inp inp.presets).mp hok pr hm).2 hbad
    · exact ⟨e, herr e he⟩
  · intro h1 h2 h3
    rcases except_ok_or_error (checkPresetsList inp inp.presets) with hok | ⟨e, he⟩
    · refine ⟨"captain_policy must be one of: none, at_least_one, separate", ?_⟩
      unfold buildChecks
      rw [hok]
      unfold checkPolicy
      rw [if_neg]
      rintro (h | h | h) <;> [exact h1 h; exact h2 h; exact h3 h]
    · exact ⟨e, herr e he⟩
  · intro e he st v
    unfold run
    rw [he]

/-- Witness for C7 at an input with a preset naming an unknown player. -/
theorem claim_C7_amended_witness :
    (∃ pr ∈ exInputBadPreset.presets, nameIdx exInputBadPreset pr.1 = none)
      ∧ ∃ e, buildChecks exInputBadPreset = .error e :=
  ⟨by decide, (claim_C7_amended exInputBadPreset).1 (by decide)⟩

/-- C6: weighted skills are scaled by the fixed factor 100 and rounded to a
nearest integer before entering the model; the balancing target is the
floor division of the total scaled weighted skill by the team count, never
exceeding (and, when the division is not exact, strictly undershooting)
the true scaled mean; and the diagnostics report target, team scores and
deviations as the scaled integers divided by the same factor. -/
theorem claim_C6 (inp : Input) (st : SolveStatus) (v : Valuation) (hT : 0 < inp.numTeams) :
    SCALE = 100
    ∧ (∀ p, |((scaledWs inp p : ℤ) : ℚ) - weightedSkill inp p * ((SCALE : ℤ) : ℚ)| ≤ 1 / 2)
    ∧ target inp = Int.fdiv (totalScore inp) (inp.numTeams : ℤ)
    ∧ ((target inp : ℤ) : ℚ) ≤ ((totalScore inp : ℤ) : ℚ) / ((inp.numTeams : ℕ) : ℚ)
    ∧ (totalScore inp % (inp.numTeams : ℤ) ≠ 0 →
        ((target inp : ℤ) : ℚ) < ((totalScore inp : ℤ) : ℚ) / ((inp.numTeams : ℕ) : ℚ))
    ∧ (diagnosticsOf inp st v).targetScore = ((target inp : ℤ) : ℚ) / ((SCALE : ℤ) : ℚ)
    ∧ (diagnosticsOf inp st v).teamScores
        = (List.range inp.numTeams).map (fun t => ((v.s t : ℤ) : ℚ) / ((SCALE : ℤ) : ℚ))
    ∧ (diagnosticsOf inp st v).deviations
        = (List.range inp.numTeams).map (fun t => ((v.d t : ℤ) : ℚ) / ((SCALE : ℤ) : ℚ)) := by
  have hTz : (0:ℤ) < (inp.numTeams : ℤ) := by exact_mod_cast hT
  have hTq : (0:ℚ) < ((inp.numTeams : ℕ) : ℚ) := by exact_mod_cast hT
  have hfd : target inp = totalScore inp / (inp.numTeams : ℤ) := by
    unfold target
    rw [Int.fdiv_eq_ediv _ (le_of_lt hTz)]
  have hdm := Int.ediv_add_emod (totalScore inp) (inp.numTeams : ℤ)
  have hr0 := Int.emod_nonneg (totalScore inp) (ne_of_gt hTz)
  have hcomm : totalScore inp / (inp.numTeams : ℤ) * (inp.numTeams : ℤ)
      = (inp.numTeams : ℤ) * (totalScore inp / (inp.numTeams : ℤ)) := mul_comm _ _
  refine ⟨rfl, ?_, rfl, ?_, ?_, rfl, rfl, rfl⟩
  · intro p
    exact npRound_nearest (weightedSkill inp p * ((SCALE : ℤ) : ℚ))
  · rw [le_div_iff hTq]
    have hmul : target inp * (inp.numTeams : ℤ) ≤ totalScore inp := by
      rw [hfd]
      omega
    exact_mod_cast hmul
  · intro hr
    rw [lt_div_iff hTq]
    have hmul : target inp * (inp.numTeams : ℤ) < totalScore inp := by
      rw [hfd]
      omega
    exact_mod_cast hmul

/-- Witness for C6 at the concrete scenario instance. -/
theorem claim_C6_witness :
    0 < exInput.numTeams
      ∧ target exInput = Int.fdiv (totalScore exInput) (exInput.numTeams : ℤ) :=
  ⟨by decide, (claim_C6 exInput SolveStatus.optimal exVal (by decide)).2.2.1⟩

/-- C3 counterexample: a valuation with a slack deviation variable (7
instead of 0) satisfies every model constraint, is accepted and returned
under the FEASIBLE status, and its reported deviation differs from
|reported score − reported target|; the two linear inequalities alone do
not force equality on every solved instance. -/
theorem claim_C3_counterexample :
    SatisfiesModel exInput exVal3
      ∧ buildChecks exInput = .ok ()
      ∧ run exInput SolveStatus.feasible exVal3
          = .ok (assignments exInput exVal3, diagnosticsOf exInput SolveStatus.feasible exVal3)
      ∧ exVal3.d 0 ≠ |exVal3.s 0 - target exInput|
      ∧ (diagnosticsOf exInput SolveStatus.feasible exVal3).deviations.getD 0 0
          ≠ |(diagnosticsOf exInput SolveStatus.feasible exVal3).teamScores.getD 0 0
              - (diagnosticsOf exInput SolveStatus.feasible exVal3).targetScore| := by
  have ht : target exInput = 3500 := by
    rw [target_eq_int]
    decide
  refine ⟨?_, by decide, rfl, ?_, ?_⟩
  · simp only [SatisfiesModel, StructuralSat, ScoreSat, ConflictSat, CaptainCountSat,
      CaptainPolicySat, scaledWs_eq_int, target_eq_int]
    decide
  · rw [ht]
    decide
  · show ((7:ℤ) : ℚ) / ((SCALE : ℤ) : ℚ)
      ≠ |((3500:ℤ) : ℚ) / ((SCALE : ℤ) : ℚ) - ((target exInput : ℤ) : ℚ) / ((SCALE : ℤ) : ℚ)|
    rw [ht]
    simp only [SCALE]
    norm_num

/-- C3 amended: at any objective-optimal feasible valuation with a positive
balance weight, every team's deviation variable equals the absolute
difference between its score and the target, and hence the reported
deviation equals |reported score − reported target| exactly. -/
theorem claim_C3 (inp : Input) (v : Valuation) (hsat : SatisfiesModel inp v)
    (hopt : ∀ w, SatisfiesModel inp w → objective inp v ≤ objective inp w)
    (hbw : 0 < inp.balanceWeight) (t : ℕ) (ht : t < inp.numTeams) :
    v.d t = |v.s t - target inp|
      ∧ ((v.d t : ℤ) : ℚ) / ((SCALE : ℤ) : ℚ)
          = |((v.s t : ℤ) : ℚ) / ((SCALE : ℤ) : ℚ)
              - ((target inp : ℤ) : ℚ) / ((SCALE : ℤ) : ℚ)| := by
  obtain ⟨hstruct, hscore, hconf, hcc, hcp⟩ := hsat
  have habs : ∀ u, u < inp.numTeams → |v.s u - target inp| ≤ v.d u := by
    intro u hu
    obtain ⟨_, _, _, a4, _, a6, a7⟩ := hscore u hu
    rw [abs_le]
    omega
  have hle : v.d t ≤ |v.s t - target inp| := by
    by_contra hlt
    push_neg at hlt
    set B : ℤ := |v.s t - target inp| with hB
    set w : Valuation := { v with d := Function.update v.d t B } with hw
    have hwsat : SatisfiesModel inp w := by
      refine ⟨hstruct, ?_, hconf, hcc, hcp⟩
      intro u hu
      obtain ⟨a1, a2, a3, a4, a5, a6, a7⟩ := hscore u hu
      by_cases hut : u = t
      · subst hut
        refine ⟨a1, a2, a3, a4, ?_, ?_, ?_⟩
        · show 0 ≤ Function.update v.d u B u ∧ Function.update v.d u B u ≤ 10 ^ 9
          rw [Function.update_same]
          exact ⟨abs_nonneg _, le_trans (habs u hu) a5.2⟩
        · show v.diff u ≤ Function.update v.d u B u
          rw [Function.update_same, a4, hB]
          exact le_abs_self _
        · show -(v.diff u) ≤ Function.update v.d u B u
          rw [Function.update_same, a4, hB]
          exact neg_le_abs _
      · have hupd : Function.update v.d t B u = v.d u := Function.update_noteq hut _ _
        refine ⟨a1, a2, a3, a4, ?_, ?_, ?_⟩
        · show 0 ≤ Function.update v.d t B u ∧ Function.update v.d t B u ≤ 10 ^ 9
          rw [hupd]
          exact a5
        · show v.diff u ≤ Function.update v.d t B u
          rw [hupd]
          exact a6
        · show -(v.diff u) ≤ Function.update v.d t B u
          rw [hupd]
          exact a7
    have hobj := hopt w hwsat
    have hsum : (∑ u ∈ Finset.range inp.numTeams, w.d u)
        < ∑ u ∈ Finset.range inp.numTeams, v.d u := by
      have hmem : t ∈ Finset.range inp.numTeams := Finset.mem_range.mpr ht
      show (∑ u ∈ Finset.range inp.numTeams, Function.update v.d t B u) < _
      rw [Finset.sum_update_of_mem hmem,
        Finset.sum_sdiff_eq_sub (Finset.singleton_subset_iff.mpr hmem),
        Finset.sum_singleton]
      omega
    have hlt2 : objective inp w < objective inp v := by
      unfold objective
      rw [show conflictSum inp w = conflictSum inp v from rfl,
        show captainPenaltySum inp w = captainPenaltySum inp v from rfl,
        if_pos (ne_of_gt hbw), if_pos (ne_of_gt hbw)]
      apply add_lt_add_right
      apply add_lt_add_right
      exact mul_lt_mul_of_pos_left (by exact_mod_cast hsum) hbw
    linarith
  have hd : v.d t = |v.s t - target inp| := le_antisymm hle (habs t ht)
  refine ⟨hd, ?_⟩
  rw [hd, div_sub_div_same]
  push_cast
  rw [abs_div]
  congr 1

/-- Witness for C3 at the one-player instance, whose optimality is forced:
the objective is the single deviation variable. -/
theorem claim_C3_witness :
    SatisfiesModel wInput wVal
      ∧ 0 < wInput.balanceWeight
      ∧ wVal.d 0 = |wVal.s 0 - target wInput| := by
  have hs : SatisfiesModel wInput wVal := by
    simp only [SatisfiesModel, StructuralSat, ScoreSat, ConflictSat, CaptainCountSat,
      CaptainPolicySat, scaledWs_eq_int, target_eq_int]
    decide
  have hctc : conflictTermCount wInput = 0 := by decide
  have hcpc : captainPenaltyCount wInput = 0 := by decide
  have hbne : wInput.balanceWeight ≠ 0 := by decide
  have hopt : ∀ w, SatisfiesModel wInput w → objective wInput wVal ≤ objective wInput w := by
    intro w hw
    obtain ⟨_, hscore, _, _, _⟩ := hw
    have hv0 : objective wInput wVal = 0 := by
      have hsum0 : (∑ u ∈ Finset.range wInput.numTeams, wVal.d u) = 0 := by decide
      unfold objective
      rw [hctc, hcpc, hsum0, if_pos hbne]
      norm_num
    have hw' : objective wInput w
        = wInput.balanceWeight * ((∑ u ∈ Finset.range wInput.numTeams, w.d u : ℤ) : ℚ) := by
      unfold objective
      rw [hctc, hcpc, if_pos hbne]
      norm_num
    rw [hv0, hw']
    have hsum : (0:ℤ) ≤ ∑ u ∈ Finset.range wInput.numTeams, w.d u :=
      Finset.sum_nonneg (fun u hu =>
        ((hscore u (Finset.mem_range.mp hu)).2.2.2.2.1).1)
    have hcast : (0:ℚ) ≤ ((∑ u ∈ Finset.range wInput.numTeams, w.d u : ℤ) : ℚ) := by
      exact_mod_cast hsum
    have hb1 : wInput.balanceWeight = 1 := rfl
    rw [hb1]
    linarith
  exact ⟨hs, by decide,
    (claim_C3 wInput wVal hs hopt (by decide) 0 (by decide)).1⟩

/-- C2: under a hard captain policy, the pigeonhole-infeasible cases
(at_least_one with fewer captains than teams, separate with more captains
than teams) are detected before the hard constraint is added: the builder
downgrades to the soft penalty, emits exactly one feasibility warning into
the diagnostics, and the model stays satisfiable over every structurally
feasible assignment; otherwise no warning is emitted and every feasible
valuation satisfies the hard per-team captain bound. -/
theorem claim_C2 (inp : Input)
    (hT : 0 < inp.numTeams)
    (_hpol : inp.captainPolicy = "at_least_one" ∨ inp.captainPolicy = "separate")
    (hhard : inp.captainHard = true)
    (hsc : ∀ p < numPlayers inp, 0 ≤ scaledWs inp p)
    (htot : totalScore inp ≤ 10 ^ 9)
    (hposr : ∀ p < numPlayers inp, pos inp p ∈ rolesSorted inp) :
    ((atLeastOneDowngrade inp || separateDowngrade inp) = true →
      (feasibilityWarnings inp).length = 1
        ∧ effectiveCaptainHard inp = false
        ∧ (∀ st v, (diagnosticsOf inp st v).feasibilityWarnings = feasibilityWarnings inp)
        ∧ ∀ xv, StructuralSat inp xv → ∃ v : Valuation, v.x = xv ∧ SatisfiesModel inp v)
    ∧ ((atLeastOneDowngrade inp || separateDowngrade inp) = false →
      feasibilityWarnings inp = []
        ∧ ∀ v, SatisfiesModel inp v → ∀ t < inp.numTeams,
            (inp.captainPolicy = "at_least_one" → 1 ≤ v.c t)
              ∧ (inp.captainPolicy = "separate" → v.c t ≤ 1)) := by
  have hmutex : ¬(atLeastOneDowngrade inp = true ∧ separateDowngrade inp = true) := by
    rintro ⟨h1, h2⟩
    unfold atLeastOneDowngrade at h1
    unfold separateDowngrade at h2
    simp only [Bool.and_eq_true, decide_eq_true_eq] at h1 h2
    rw [h1.1.1] at h2
    exact absurd h2.1.1 (by decide)
  constructor
  · intro hdg
    have heff : effectiveCaptainHard inp = false := by
      unfold effectiveCaptainHard
      rw [Bool.or_eq_true] at hdg
      rcases hdg with h1 | h2
      · rw [h1]
        simp
      · rw [h2]
        simp
    have hlen : (feasibilityWarnings inp).length = 1 := by
      unfold feasibilityWarnings
      rw [Bool.or_eq_true] at hdg
      rcases hdg with h1 | h2
      · have h2f : separateDowngrade inp = false := by
          cases hsep : separateDowngrade inp
          · rfl
          · exact absurd ⟨h1, hsep⟩ hmutex
        rw [h1, h2f]
        rfl
      · have h1f : atLeastOneDowngrade inp = false := by
          cases halo : atLeastOneDowngrade inp
          · rfl
          · exact absurd ⟨halo, h2⟩ hmutex
        rw [h1f, h2]
        rfl
    refine ⟨hlen, heff, fun st v => rfl, ?_⟩
    intro xv hst
    exact ⟨completeVal inp xv, rfl,
      completeVal_satisfies hst hT hsc htot hposr heff⟩
  · intro hnod
    have h1 : atLeastOneDowngrade inp = false := by
      cases h : atLeastOneDowngrade inp
      · rfl
      · rw [h] at hnod
        simp at hnod
    have h2 : separateDowngrade inp = false := by
      cases h : separateDowngrade inp
      · rfl
      · rw [h] at hnod
        simp at hnod
    have hwempty : feasibilityWarnings inp = [] := by
      unfold feasibilityWarnings
      rw [h1, h2]
      rfl
    have heff : effectiveCaptainHard inp = true := by
      unfold effectiveCaptainHard
      rw [h1, h2, hhard]
      rfl
    refine ⟨hwempty, ?_⟩
    intro v hv t ht
    obtain ⟨_, _, _, _, hcp⟩ := hv
    obtain ⟨hcp1, _, hcp3, _⟩ := hcp
    exact ⟨fun hp => hcp1 hp heff t ht, fun hp => hcp3 hp heff t ht⟩

/-- Witness for C2: one captain, two teams, hard at_least_one policy:
downgrade fires, exactly one warning, and the structurally feasible
assignment extends to a feasible model valuation. -/
theorem claim_C2_witness :
    (atLeastOneDowngrade exInput2 || separateDowngrade exInput2) = true
      ∧ (feasibilityWarnings exInput2).length = 1
      ∧ effectiveCaptainHard exInput2 = false
      ∧ StructuralSat exInput2 exAssign2
      ∧ ∃ v : Valuation, v.x = exAssign2 ∧ SatisfiesModel exInput2 v := by
  have hst : StructuralSat exInput2 exAssign2 := by
    simp only [StructuralSat]
    decide
  have h := claim_C2 exInput2 (by decide) (Or.inl rfl) rfl
    (by simp only [scaledWs_eq_int]; decide)
    (by rw [totalScore_eq_int]; decide)
    (by decide)
  obtain ⟨hlen, heff, hdiag, hex⟩ := h.1 (by decide)
  exact ⟨by decide, hlen, heff, hst, hex exAssign2 hst⟩

/-! ### Congruence of the build under an Avoid change -/

theorem numPlayers_setAvoid (inp : Input) (p : ℕ) (av : Option String) :
    numPlayers (setAvoid inp p av) = numPlayers inp := by
  unfold numPlayers setAvoid
  exact List.length_set _ _ _

theorem numTeams_setAvoid (inp : Input) (p : ℕ) (av : Option String) :
    (setAvoid inp p av).numTeams = inp.numTeams := rfl

theorem presets_setAvoid (inp : Input) (p : ℕ) (av : Option String) :
    (setAvoid inp p av).presets = inp.presets := rfl

theorem rolesSorted_setAvoid (inp : Input) (p : ℕ) (av : Option String) :
    rolesSorted (setAvoid inp p av) = rolesSorted inp := rfl

theorem roleWeights_setAvoid (inp : Input) (p : ℕ) (av : Option String) :
    (setAvoid inp p av).roleWeights = inp.roleWeights := rfl

theorem captainPolicy_setAvoid (inp : Input) (p : ℕ) (av : Option String) :
    (setAvoid inp p av).captainPolicy = inp.captainPolicy := rfl

theorem balanceWeight_setAvoid (inp : Input) (p : ℕ) (av : Option String) :
    (setAvoid inp p av).balanceWeight = inp.balanceWeight := rfl

theorem conflictWeight_setAvoid (inp : Input) (p : ℕ) (av : Option String) :
    (setAvoid inp p av).conflictWeight = inp.conflictWeight := rfl

theorem captainWeight_setAvoid (inp : Input) (p : ℕ) (av : Option String) :
    (setAvoid inp p av).captainWeight = inp.captainWeight := rfl

theorem checkPolicy_setAvoid (inp : Input) (p : ℕ) (av : Option String) :
    checkPolicy (setAvoid inp p av) = checkPolicy inp := rfl

theorem numRoles_setAvoid (inp : Input) (p : ℕ) (av : Option String) :
    numRoles (setAvoid inp p av) = numRoles inp := rfl

theorem playerAt_setAvoid_ne (inp : Input) (p : ℕ) (av : Option String) (q : ℕ)
    (hne : q ≠ p) : playerAt (setAvoid inp p av) q = playerAt inp q := by
  unfold playerAt setAvoid
  dsimp only
  rw [List.getD_eq_getElem?_getD, List.getD_eq_getElem?_getD,
    List.getElem?_set_ne (Ne.symm hne)]
  exact (List.getD_eq_getElem?_getD _ _ _).symm

theorem playerAt_setAvoid_self (inp : Input) (p : ℕ) (av : Option String)
    (hp : p < numPlayers inp) :
    playerAt (setAvoid inp p av) p = { playerAt inp p with avoid := av } := by
  unfold playerAt setAvoid numPlayers at *
  dsimp only
  rw [List.getD_eq_getElem?_getD, List.getElem?_set_eq hp]
  rfl

theorem playerAt_setAvoid_fields (inp : Input) (p : ℕ) (av : Option String) (q : ℕ) :
    (playerAt (setAvoid inp p av) q).name = (playerAt inp q).name
    ∧ (playerAt (setAvoid inp p av) q).skill = (playerAt inp q).skill
    ∧ (playerAt (setAvoid inp p av) q).pos = (playerAt inp q).pos
    ∧ (playerAt (setAvoid inp p av) q).captain = (playerAt inp q).captain := by
  by_cases hq : q = p
  · subst hq
    by_cases hp : q < numPlayers inp
    · rw [playerAt_setAvoid_self inp q av hp]
      exact ⟨rfl, rfl, rfl, rfl⟩
    · have hplay : playerAt (setAvoid inp q av) q = playerAt inp q := by
        unfold playerAt setAvoid numPlayers at *
        dsimp only
        rw [List.getD_eq_getElem?_getD, List.getD_eq_getElem?_getD, List.getElem?_set,
          if_pos rfl, if_neg hp, List.getElem?_eq_none (by omega)]
      rw [hplay]
      exact ⟨rfl, rfl, rfl, rfl⟩
  · rw [playerAt_setAvoid_ne inp p av q hq]
    exact ⟨rfl, rfl, rfl, rfl⟩

theorem pos_setAvoid (inp : Input) (p : ℕ) (av : Option String) (q : ℕ) :
    pos (setAvoid inp p av) q = pos inp q := by
  unfold pos
  exact (playerAt_setAvoid_fields inp p av q).2.2.1

theorem captInt_setAvoid (inp : Input) (p : ℕ) (av : Option String) (q : ℕ) :
    captInt (setAvoid inp p av) q = captInt inp q := by
  unfold captInt
  rw [(playerAt_setAvoid_fields inp p av q).2.2.2]

theorem nameIdx_setAvoid (inp : Input) (p : ℕ) (av : Option String) (n : String) :
    nameIdx (setAvoid inp p av) n = nameIdx inp n := by
  unfold nameIdx
  rw [numPlayers_setAvoid,
    List.filter_congr (fun i _ => by rw [(playerAt_setAvoid_fields inp p av i).1])]

theorem scaledWs_setAvoid (inp : Input) (p : ℕ) (av : Option String) (q : ℕ) :
    scaledWs (setAvoid inp p av) q = scaledWs inp q := by
  unfold scaledWs weightedSkill
  rw [(playerAt_setAvoid_fields inp p av q).2.1, pos_setAvoid, roleWeights_setAvoid]

theorem totalScore_setAvoid (inp : Input) (p : ℕ) (av : Option String) :
    totalScore (setAvoid inp p av) = totalScore inp := by
  unfold totalScore
  rw [numPlayers_setAvoid]
  exact Finset.sum_congr rfl (fun q _ => scaledWs_setAvoid inp p av q)

theorem target_setAvoid (inp : Input) (p : ℕ) (av : Option String) :
    target (setAvoid inp p av) = target inp := by
  unfold target
  rw [totalScore_setAvoid, numTeams_setAvoid]

theorem numCaptains_setAvoid (inp : Input) (p : ℕ) (av : Option String) :
    numCaptains (setAvoid inp p av) = numCaptains inp := by
  unfold numCaptains
  rw [numPlayers_setAvoid]
  exact Finset.sum_congr rfl (fun q _ => captInt_setAvoid inp p av q)

theorem feasibilityWarnings_setAvoid (inp : Input) (p : ℕ) (av : Option String) :
    feasibilityWarnings (setAvoid inp p av) = feasibilityWarnings inp := by
  unfold feasibilityWarnings atLeastOneDowngrade separateDowngrade
  rw [numCaptains_setAvoid]
  rfl

theorem effectiveCaptainHard_setAvoid (inp : Input) (p : ℕ) (av : Option String) :
    effectiveCaptainHard (setAvoid inp p av) = effectiveCaptainHard inp := by
  unfold effectiveCaptainHard atLeastOneDowngrade separateDowngrade
  rw [numCaptains_setAvoid]
  rfl

theorem checkPresetsList_setAvoid (inp : Input) (p : ℕ) (av : Option String)
    (l : List (String × ℤ)) :
    checkPresetsList (setAvoid inp p av) l = checkPresetsList inp l := by
  induction l with
  | nil => rfl
  | cons hd tl ih =>
    obtain ⟨n, t1⟩ := hd
    unfold checkPresetsList
    rw [nameIdx_setAvoid]
    rcases hni : nameIdx inp n with _ | pi
    · rfl
    · dsimp only
      rw [numTeams_setAvoid]
      split_ifs
      · exact ih
      · rfl

theorem buildChecks_setAvoid (inp : Input) (p : ℕ) (av : Option String) :
    buildChecks (setAvoid inp p av) = buildChecks inp := by
  unfold buildChecks
  rw [presets_setAvoid, checkPresetsList_setAvoid]
  simp only [checkPolicy_setAvoid]

theorem avoidPairs_setAvoid_none {inp : Input} {p : ℕ} (hp : p < numPlayers inp)
    {b : String} (hav : (playerAt inp p).avoid = some b)
    (hunk : nameIdx inp b = none) :
    avoidPairs (setAvoid inp p none) = avoidPairs inp := by
  unfold avoidPairs
  rw [numPlayers_setAvoid]
  apply List.filterMap_congr
  intro q _
  by_cases hq : q = p
  · subst hq
    rw [playerAt_setAvoid_self inp q none hp]
    dsimp only
    rw [hav]
    dsimp only
    rw [hunk]
  · rw [playerAt_setAvoid_ne inp p none q hq]
    simp only [nameIdx_setAvoid]

theorem satisfiesModel_setAvoid {inp : Input} {p : ℕ} (hp : p < numPlayers inp)
    {b : String} (hav : (playerAt inp p).avoid = some b)
    (hunk : nameIdx inp b = none) (v : Valuation) :
    SatisfiesModel (setAvoid inp p none) v ↔ SatisfiesModel inp v := by
  unfold SatisfiesModel StructuralSat ScoreSat ConflictSat CaptainCountSat CaptainPolicySat
  simp only [numPlayers_setAvoid, numTeams_setAvoid, pos_setAvoid, nameIdx_setAvoid,
    rolesSorted_setAvoid, presets_setAvoid, scaledWs_setAvoid, target_setAvoid,
    captInt_setAvoid, numRoles_setAvoid, avoidPairs_setAvoid_none hp hav hunk,
    effectiveCaptainHard_setAvoid, captainPolicy_setAvoid]

theorem objective_setAvoid {inp : Input} {p : ℕ} (hp : p < numPlayers inp)
    {b : String} (hav : (playerAt inp p).avoid = some b)
    (hunk : nameIdx inp b = none) (v : Valuation) :
    objective (setAvoid inp p none) v = objective inp v := by
  unfold objective conflictSum conflictTermCount captainPenaltySum captainPenaltyCount
  simp only [avoidPairs_setAvoid_none hp hav hunk, numTeams_setAvoid,
    effectiveCaptainHard_setAvoid, captainPolicy_setAvoid, balanceWeight_setAvoid,
    conflictWeight_setAvoid, captainWeight_setAvoid]

theorem assignments_setAvoid (inp : Input) (p : ℕ) (av : Option String) (v : Valuation) :
    assignments (setAvoid inp p av) v = assignments inp v := by
  unfold assignments
  rw [numPlayers_setAvoid, numTeams_setAvoid]

theorem diagnosticsOf_setAvoid (inp : Input) (p : ℕ) (av : Option String)
    (st : SolveStatus) (v : Valuation) :
    diagnosticsOf (setAvoid inp p av) st v = diagnosticsOf inp st v := by
  unfold diagnosticsOf
  rw [target_setAvoid, numCaptains_setAvoid, feasibilityWarnings_setAvoid, numTeams_setAvoid]

theorem run_setAvoid (inp : Input) (p : ℕ) (av : Option String)
    (st : SolveStatus) (v : Valuation) :
    run (setAvoid inp p av) st v = run inp st v := by
  unfold run
  rw [buildChecks_setAvoid]
  rcases except_ok_or_error (buildChecks inp) with hok | ⟨e, he⟩
  · rw [hok]
    dsimp only
    split_ifs with hst
    · rfl
    · rw [assignments_setAvoid, diagnosticsOf_setAvoid]
  · rw [he]

/-- C10: an Avoid entry naming a string that is no roster player's name is
silently dropped: the directed pair list, the validation result, the
warning list, the model's constraint set, the objective and the whole run
are identical to those of the input with that Avoid entry cleared - no
pair is recorded, no co-placement variable or penalty is created, no error
is raised and no warning is emitted. -/
theorem claim_C10 (inp : Input) (p : ℕ) (hp : p < numPlayers inp)
    (b : String) (hav : (playerAt inp p).avoid = some b)
    (hunk : nameIdx inp b = none) :
    avoidPairs inp = avoidPairs (setAvoid inp p none)
    ∧ buildChecks inp = buildChecks (setAvoid inp p none)
    ∧ feasibilityWarnings inp = feasibilityWarnings (setAvoid inp p none)
    ∧ (∀ v, SatisfiesModel inp v ↔ SatisfiesModel (setAvoid inp p none) v)
    ∧ (∀ v, objective inp v = objective (setAvoid inp p none) v)
    ∧ (∀ st v, run inp st v = run (setAvoid inp p none) st v) :=
  ⟨(avoidPairs_setAvoid_none hp hav hunk).symm,
    (buildChecks_setAvoid inp p none).symm,
    (feasibilityWarnings_setAvoid inp p none).symm,
    fun v => (satisfiesModel_setAvoid hp hav hunk v).symm,
    fun v => (objective_setAvoid hp hav hunk v).symm,
    fun st v => (run_setAvoid inp p none st v).symm⟩

/-- Witness for C10: a roster whose only player avoids the unknown name
ghost behaves exactly like the same roster with no avoidance. -/
theorem claim_C10_witness :
    0 < numPlayers exInput10
      ∧ (playerAt exInput10 0).avoid = some "ghost"
      ∧ nameIdx exInput10 "ghost" = none
      ∧ avoidPairs exInput10 = avoidPairs (setAvoid exInput10 0 none)
      ∧ buildChecks exInput10 = buildChecks (setAvoid exInput10 0 none) := by
  have h := claim_C10 exInput10 0 (by decide) "ghost" (by decide) (by decide)
  exact ⟨by decide, by decide, by decide, h.1, h.2.1⟩

end TeamBalancer
